import Mathlib

/-!
Verification of the spiketag spatial decoding pipeline
(`spiketag/analysis/decoder.py`, `spiketag/analysis/place_field.py`)
against its natural-language specification.

Conventions of the shallow embedding:
* numpy arrays become Lean lists (`List ℚ`, `List (List ℚ)`, row major);
  machine floats are modelled as exact rationals, transcendental values
  (Gaussian window samples, `np.log`) enter as explicit parameters.
* mutable objects become explicit state records, a method that mutates
  `self` becomes a function from the state to the updated state.
* Python exceptions become an `Except` value with an error type naming
  the Python exception class that is raised.
-/

namespace Spiketag

/-! ## `mua_count_cut_off` (decoder.py lines 9-22)

```
for i in range(100):
    mua_count = X.sum(axis=1)
    idx = np.where(mua_count<=minimum_spikes)[0]
    X[idx] = X[idx-1]
    if y is not None:
        y[idx] = y[idx-1]
```

`X[idx] = X[idx-1]` is a numpy fancy assignment: the right hand side is
gathered from the *old* `X`, so one pass is a simultaneous update; a row
index `0` in `idx` reads `X[-1]`, i.e. numpy wraps around to the *last*
row. -/

/-- Python index `i - 1` as numpy resolves it on an array of `B` rows:
for `i = 0` the index `-1` wraps to the last row `B - 1`. -/
def prevWrapIdx (B i : ℕ) : ℕ :=
  if i = 0 then B - 1 else i - 1

/-- One pass of the cut-off loop over the spike-count matrix `X`:
every row whose total count is `≤ m` is simultaneously overwritten with
the row at the (wrapping) previous index. -/
def muaPassX (X : List (List ℤ)) (m : ℤ) : List (List ℤ) :=
  (List.range X.length).map (fun i =>
    if (X.getD i []).sum ≤ m then X.getD (prevWrapIdx X.length i) [] else X.getD i [])

/-- The paired update of the label array `y`: the replaced indices are
the ones computed from `X` (not from `y`). -/
def muaPassY (X : List (List ℤ)) (y : List (ℚ × ℚ)) (m : ℤ) : List (ℚ × ℚ) :=
  (List.range y.length).map (fun i =>
    if (X.getD i []).sum ≤ m then y.getD (prevWrapIdx y.length i) (0, 0) else y.getD i (0, 0))

/-- The state of `X` after `t` passes of the loop body. -/
def muaIterX (X : List (List ℤ)) (m : ℤ) (t : ℕ) : List (List ℤ) :=
  (fun X0 => muaPassX X0 m)^[t] X

/-- `mua_count_cut_off(X, y, minimum_spikes)`: 100 passes of the
simultaneous replacement, applied to the counts and the paired labels. -/
def mua_count_cut_off (X : List (List ℤ)) (y : List (ℚ × ℚ)) (m : ℤ) :
    List (List ℤ) × List (ℚ × ℚ) :=
  (fun Xy : List (List ℤ) × List (ℚ × ℚ) =>
    (muaPassX Xy.1 m, muaPassY Xy.1 Xy.2 m))^[100] (X, y)

/-- Indices of the original rows that survive all 100 passes unreplaced:
row `i` is kept iff at no pass it is selected for replacement (its
current total count always stays above the threshold). -/
def keptRows (X : List (List ℤ)) (m : ℤ) : List ℕ :=
  (List.range X.length).filter (fun i =>
    (List.range 100).all (fun t => decide (m < ((muaIterX X m t).getD i []).sum)))

/-! ## Evaluator scoring (`Decoder.r2_score`, `auto_pipeline`,
`load_decoder`; decoder.py lines 42-48, 179-186, 200-207)

`sklearn.metrics.r2_score(y_true, y_pred)` computes, per output axis,
`1 - sum((y_true - y_pred)^2) / sum((y_true - mean(y_true))^2)`; one
axis (one column of the 2D trajectory) is modelled. -/

def listMean (l : List ℚ) : ℚ := l.sum / l.length

/-- `sklearn.metrics.r2_score(y_true, y_pred)` on one output axis. -/
def sklearn_r2_score (y_true y_pred : List ℚ) : ℚ :=
  1 - (List.zipWith (fun a b => (a - b) * (a - b)) y_true y_pred).sum /
      (y_true.map (fun a => (a - listMean y_true) * (a - listMean y_true))).sum

/-- `Decoder.r2_score(self, y_predict, y_true)` (decoder.py line 179):
the wrapper's first parameter is `y_predict`, and it forwards to
sklearn as `r2_score(y_true, y_predict)`. -/
def decoder_r2_score (y_predict y_true : List ℚ) : ℚ :=
  sklearn_r2_score y_true y_predict

/-- The scoring call of `Decoder.auto_pipeline` (decoder.py line 206):
`score = self.r2_score(self.y_test, self.sm_predicted_y)` — the ground
truth `y_test` is passed as the wrapper's *first* positional argument,
i.e. into the `y_predict` slot. -/
def auto_pipeline_score (y_test sm_predicted_y : List ℚ) : ℚ :=
  decoder_r2_score y_test sm_predicted_y

/-- The scoring call of `load_decoder` (decoder.py line 46):
`score = dec.r2_score(sm_predicted_y, y_test)`. -/
def load_decoder_score (sm_predicted_y y_test : List ℚ) : ℚ :=
  decoder_r2_score sm_predicted_y y_test

/-- `place_field.binned_pos_2_real_pos`:
`pos = binned_pos*self.bin_size + self.maze_original` (one axis). -/
def binned_pos_2_real_pos (bin_size maze_original : ℚ) (b : ℤ) : ℚ :=
  b * bin_size + maze_original

/-- `place_field.real_pos_2_binned_pos` with `interger_output=True`:
`binned_pos = (real_pos - self.maze_original)//self.bin_size` (one
axis); `//` is floor division, truncating toward negative infinity. -/
def real_pos_2_binned_pos (bin_size maze_original : ℚ) (x : ℚ) : ℤ :=
  ((x - maze_original) / bin_size).floor

/-! ## The place-cell object state (place_field.py, class `place_field`)

The arrays `v_smoothed` and `v_smoothed_wide` are produced in
`get_speed` by `pos2speed` and `smooth` from `spiketag/analysis/core.py`,
a module that is not part of the sources; they are deterministic in
`(ts, pos, fs)` and are held here as state data.  `kern_g` is the 1D
Gaussian window `scipy.signal.gaussian(kernlen, kernstd)` (SciPy library
code, a strictly positive vector), also held as data; the repository's
own `gkern` logic (outer product, normalization) is embedded below. -/

structure PCState where
  ts : List ℚ
  pos : List (ℚ × ℚ)
  v_smoothed : List ℚ
  v_smoothed_wide : List ℚ
  v_cutoff : ℚ
  bin_size : ℚ
  maze_range : (ℚ × ℚ) × (ℚ × ℚ)
  kern_g : List ℚ
  spk_time_dict : List (List ℚ)
  nbins : ℕ × ℕ
  O : List (List ℕ)
  fields : List (List (List ℚ))
deriving DecidableEq

/-- `self.dt` (place_field.py line 226): `ts[1] - ts[0]`. -/
def pcDt (pc : PCState) : ℚ := pc.ts.getD 1 0 - pc.ts.getD 0 0

/-! ## `Decoder._percent_to_time` and `Decoder.partition`
(decoder.py lines 97-144) -/

/-- `np.round`: round half to even (numpy banker's rounding).
`Rat.floor` is used rather than the `⌊ ⌋` notation so that the
definition evaluates inside `decide`; `Rat.floor_def` identifies the
two. -/
def npRound (q : ℚ) : ℤ :=
  if q - (q.floor : ℚ) < 1 / 2 then q.floor
  else if 1 / 2 < q - (q.floor : ℚ) then q.floor + 1
  else if q.floor % 2 = 0 then q.floor else q.floor + 1

/-- `Decoder._percent_to_time`: `int(np.round(percent * len_frame))`
clamped into `[0, len_frame - 1]`. -/
def percentToTime (L : ℕ) (percent : ℚ) : ℕ :=
  let totime := npRound (percent * L)
  if totime < 0 then 0
  else if (L : ℤ) - 1 < totime then L - 1
  else totime.toNat

/-- `np.arange(a, b)` for the two clamped endpoints of a fractional
range: the indices `a, a+1, ..., b-1`. -/
def rangeIdx (L : ℕ) (r : ℚ × ℚ) : List ℕ :=
  List.range' (percentToTime L r.1) (percentToTime L r.2 - percentToTime L r.1)

/-- The speed filter `idx[self.pc.v_smoothed[idx] > self.v_cutoff]`. -/
def speedFilter (pc : PCState) (vc : ℚ) (idx : List ℕ) : List ℕ :=
  idx.filter (fun i => vc < pc.v_smoothed.getD i 0)

structure PartitionResult where
  train_idx : List ℕ
  valid_idx : List ℕ
  test_idx : List ℕ
deriving DecidableEq

/-- `Decoder.partition`: converts the three fractional ranges into index
ranges and applies the speed filter.  The `low_speed_cutoff` dict has
exactly the two keys `training` and `testing` (`cut_training`,
`cut_testing` here); the `training` branch filters *both* the training
and the validation indices, the `testing` branch filters the testing
indices.  `vco = none` means `v_cutoff=None`, i.e. use `pc.v_cutoff`. -/
def partition (pc : PCState) (training_range valid_range testing_range : ℚ × ℚ)
    (cut_training cut_testing : Bool) (vco : Option ℚ) : PartitionResult :=
  let L := pc.ts.length
  let vc := vco.getD pc.v_cutoff
  let tr0 := rangeIdx L training_range
  let va0 := rangeIdx L valid_range
  let te0 := rangeIdx L testing_range
  { train_idx := if cut_training then speedFilter pc vc tr0 else tr0
    valid_idx := if cut_training then speedFilter pc vc va0 else va0
    test_idx := if cut_testing then speedFilter pc vc te0 else te0 }

/-- A concrete place-cell state used as a counterexample input: 4 time
samples, all smoothed speeds 0, speed cutoff 5. -/
def pcPart : PCState :=
  { ts := [0, 1, 2, 3]
    pos := [(0, 0), (1, 1), (2, 2), (3, 3)]
    v_smoothed := [0, 0, 0, 0]
    v_smoothed_wide := [0, 0, 0, 0]
    v_cutoff := 5
    bin_size := 1
    maze_range := ((0, 3), (0, 3))
    kern_g := [1]
    spk_time_dict := []
    nbins := (3, 3)
    O := []
    fields := [] }

/-! ## Occupancy map and place fields
(`place_field.get_occupation_map`, `_get_firing_pos`, `_get_field`,
`get_field`, `get_fields`; place_field.py lines 425-449, 465-505,
682-694, 710-753) -/

/-- The bin index `np.histogram2d` assigns to a coordinate on one axis:
`n` uniform bins over `[lo, hi]`; a value in `[edge_k, edge_{k+1})`
falls in bin `k`, the last bin also includes its right edge, and values
outside `[lo, hi]` are not counted (`none`).  (For a degenerate or
empty range numpy auto-expands the range; that case never arises here
and is mapped to `none`.) -/
def binIdx (lo hi : ℚ) (n : ℕ) (x : ℚ) : Option ℕ :=
  if lo < hi ∧ 0 < n ∧ lo ≤ x ∧ x ≤ hi then
    if x = hi then some (n - 1)
    else some ((x - lo) * n / (hi - lo)).floor.toNat
  else none

/-- `np.histogram2d(x=pts.x, y=pts.y, bins=(nx, ny), range=(xr, yr))`
followed by the transposition `.T` done in the source: the returned
matrix is indexed `[ybin][xbin]` ("each row lists bins with common y
range"), with integer counts. -/
def hist2dT (pts : List (ℚ × ℚ)) (nx ny : ℕ) (xr yr : ℚ × ℚ) : List (List ℕ) :=
  (List.range ny).map (fun iy =>
    (List.range nx).map (fun ix =>
      (pts.filter (fun p =>
        binIdx xr.1 xr.2 nx p.1 = some ix ∧ binIdx yr.1 yr.2 ny p.2 = some iy)).length))

/-- `nbins = (maze_size / bin_size).astype(int)` (get_occupation_map):
extent of each axis divided by the bin size, truncated to an integer
(the extents are nonnegative, so truncation is the floor). -/
def mazeNbins (pc : PCState) : ℕ × ℕ :=
  (((pc.maze_range.1.2 - pc.maze_range.1.1) / pc.bin_size).floor.toNat,
   ((pc.maze_range.2.2 - pc.maze_range.2.1) / pc.bin_size).floor.toNat)

/-- `place_field.get_occupation_map(start, end)`: select the samples
with wide-smoothed speed at or above the cutoff and timestamp inside
`[start, end]`, histogram their positions over the maze grid, store the
(transposed, integer) occupancy `O` and the bin counts.  `fit` always
passes both `start` and `end`, so the `None` defaults are not
modelled. -/
def get_occupation_map (pc : PCState) (start end_ : ℚ) : PCState :=
  let nb := mazeNbins pc
  let high := (List.range pc.ts.length).filter (fun i =>
    pc.v_cutoff ≤ pc.v_smoothed_wide.getD i 0 ∧
      start ≤ pc.ts.getD i 0 ∧ pc.ts.getD i 0 ≤ end_)
  let occ := hist2dT (high.map (fun i => pc.pos.getD i (0, 0)))
    nb.1 nb.2 pc.maze_range.1 pc.maze_range.2
  { pc with nbins := nb, O := occ }

/-- `np.where(self.v_smoothed_wide < self.v_cutoff)[0]` (get_speed,
place_field.py line 395).  `v_smoothed_wide` itself is computed by the
missing `core` module and is state data here. -/
def lowSpeedIdx (pc : PCState) : List ℕ :=
  (List.range pc.v_smoothed_wide.length).filter
    (fun i => pc.v_smoothed_wide.getD i 0 < pc.v_cutoff)

/-- `np.searchsorted(a, v)` (side `left`) for sorted `a`: the number of
elements of `a` smaller than `v`. -/
def searchsorted (a : List ℚ) (v : ℚ) : ℕ := (a.filter (fun t => t < v)).length

/-- `place_field._get_firing_pos`: map each spike time to the
trajectory sample in effect (`searchsorted - 1`), keep only strictly
positive indices, drop spikes in low-speed epochs, and return the
corresponding positions. -/
def _get_firing_pos (pc : PCState) (spk_times : List ℚ) : List (ℚ × ℚ) :=
  let spk_ts_idx := spk_times.map (fun t => (searchsorted pc.ts t : ℤ) - 1)
  let pos_idx := spk_ts_idx.filter (fun i => 0 < i)
  let idx := pos_idx.filter (fun i => ¬ (i.toNat ∈ lowSpeedIdx pc))
  idx.map (fun i => pc.pos.getD i.toNat (0, 0))

/-- `place_field.gkern(kernlen, std)` with the SciPy sample vector
`g = signal.gaussian(kernlen, std)` passed in: the outer product
`np.outer(g, g)` normalized to sum 1. -/
def gkern (g : List ℚ) : List (List ℚ) :=
  let outer := g.map (fun a => g.map (fun b => a * b))
  let s := (outer.map (fun row => row.sum)).sum
  outer.map (fun row => row.map (fun x => x / s))

/-- Half-sample symmetric index reflection (`boundary='symm'` of
`scipy.signal.convolve2d`): the extension has period `2n` given by
mirroring, `-1 ↦ 0`, `-2 ↦ 1`, `n ↦ n-1`, `n+1 ↦ n-2`, ... -/
def reflectIdx (n : ℕ) (i : ℤ) : ℕ :=
  if n = 0 then 0
  else
    let r := i % (2 * n)
    if r < n then r.toNat else (2 * n - 1 - r).toNat

/-- Entry of the symmetric extension of a matrix. -/
def matGetSym (A : List (List ℚ)) (i j : ℤ) : ℚ :=
  (A.getD (reflectIdx A.length i) []).getD (reflectIdx (A.getD 0 []).length j) 0

/-- `scipy.signal.convolve2d(A, K, boundary='symm', mode='same')`:
true 2D convolution with the kernel, the output having the shape of
`A`, the center of the kernel aligned (offset `(len-1)/2`), and `A`
extended by half-sample mirroring. -/
def conv2dSymm (A K : List (List ℚ)) : List (List ℚ) :=
  let rk := K.length
  let ck := (K.getD 0 []).length
  (List.range A.length).map (fun i =>
    (List.range ((A.getD 0 []).length)).map (fun j =>
      ((List.range rk).map (fun m =>
        ((List.range ck).map (fun n =>
          (K.getD m []).getD n 0 *
            matGetSym A ((i : ℤ) + ((rk - 1) / 2 : ℕ) - m)
              ((j : ℤ) + ((ck - 1) / 2 : ℕ) - n))).sum)).sum))

/-- `FR = firing_map / (O * dt)` with `np.seterr(divide='ignore',
invalid='ignore')` followed by `FR[np.isnan(FR)] = 0` and
`FR[np.isinf(FR)] = 0`: a zero denominator (`0/0` = nan, `x/0` = inf)
produces 0 instead of propagating. -/
def rateMatrix (firing occ : List (List ℕ)) (dt : ℚ) : List (List ℚ) :=
  (List.range firing.length).map (fun r =>
    (List.range ((firing.getD r []).length)).map (fun c =>
      if ((occ.getD r []).getD c 0 : ℚ) * dt = 0 then 0
      else ((firing.getD r []).getD c 0 : ℚ) / (((occ.getD r []).getD c 0 : ℚ) * dt)))

/-- `place_field._get_field(spk_times)`: histogram the firing
positions, divide by occupancy time (zeroing nan/inf), and smooth with
the Gaussian kernel; returns `FR_smoothed`. -/
def _get_field (pc : PCState) (spk_times : List ℚ) : List (List ℚ) :=
  let fpos := _get_firing_pos pc spk_times
  let firing_map := hist2dT fpos pc.nbins.1 pc.nbins.2 pc.maze_range.1 pc.maze_range.2
  conv2dSymm (rateMatrix firing_map pc.O (pcDt pc)) (gkern pc.kern_g)

/-- The spike-time restriction of `get_field` (place_field.py line
693): `spk_times[start <= spk_times & spk_times < end]` (`fit` always
passes both bounds). -/
def get_field_spikes (spk_times : List ℚ) (start end_ : ℚ) : List ℚ :=
  spk_times.filter (fun t => start ≤ t ∧ t < end_)

/-- `1e-25`, the clamp value of `get_fields`. -/
def fieldEps : ℚ := 1 / 10000000000000000000000000

/-- `self.fields[self.fields==0] = 1e-25` (place_field.py line 750),
elementwise on one neuron's field. -/
def clampZeros (A : List (List ℚ)) : List (List ℚ) :=
  A.map (fun row => row.map (fun x => if x = 0 then fieldEps else x))

/-- `place_field.get_fields(spk_time_dict, start, end, v_cutoff,
rank=False)` (the path taken by `NaiveBayes.fit`): recompute the
occupancy map for the window (note: using the *current* `v_cutoff`,
line 719 runs before line 737 assigns the new one), then set
`v_cutoff` (when given) and recompute the low-speed mask, build one
smoothed rate map per neuron of the dictionary restricted to
`[start, end)`, and clamp exact zeros of the stacked fields to
`1e-25`.  The dictionary has keys `0..n-1`, so every index is present;
`rank=False` skips `rank_fields`. -/
def get_fields (pc : PCState) (dict : List (List ℚ)) (start end_ : ℚ)
    (vco : Option ℚ) : PCState :=
  let pc1 := get_occupation_map pc start end_
  let pc2 := match vco with
    | none => pc1
    | some vc => { pc1 with v_cutoff := vc }
  let flds := dict.map (fun spk => _get_field pc2 (get_field_spikes spk start end_))
  { pc2 with fields := flds.map clampZeros }

/-! ## The `NaiveBayes` decoder state machine
(decoder.py lines 228-334) -/

/-- The Python exceptions a decode call can surface.
`notFittedError` names the error class the specification demands for
decoding before `fit`; no such class exists anywhere in the code. -/
inductive PyError where
  | attributeError (name : String)
  | indexError (msg : String)
  | notFittedError
deriving DecidableEq

/-- The model attributes `NaiveBayes.fit` stores on the decoder
(decoder.py lines 284-289). -/
structure NBModel where
  fields : List (List (List ℚ))
  spatial_bin_size : ℚ
  spatial_origin : ℚ × ℚ
  poisson_matrix : List (List ℚ)
  log_fr : List (List (List ℚ))
deriving DecidableEq

/-- The decoder state: configuration from `__init__`, the connected
place-cell object, the partition parameters (`train_time`, `v_cutoff`)
set by `partition`, the neuron mask of `drop_neuron`, and the model
attributes, `none` until `fit` has run (before `fit`, `self.fields`
etc. are simply not attributes of the Python object). -/
structure NBState where
  t_window : ℚ
  t_step : Option ℚ
  pc : PCState
  train_time : ℚ × ℚ
  v_cutoff : ℚ
  disable_neuron_idx : Option (List ℕ)
  fitted : Option NBModel
deriving DecidableEq

/-- `poisson_matrix = self.t_window*self.fields.sum(axis=0)`
(decoder.py line 288): the neuron-wise sum of the field stack, scaled;
the grid shape `(R, C)` is that of the occupancy map. -/
def NB_poisson (t : ℚ) (flds : List (List (List ℚ))) (R C : ℕ) : List (List ℚ) :=
  (List.range R).map (fun i =>
    (List.range C).map (fun j =>
      t * (flds.map (fun M => (M.getD i []).getD j 0)).sum))

/-- `log_fr = np.log(self.fields)` (decoder.py line 289).  `np.log` is
transcendental; it enters as the function parameter `logf`, applied
entrywise — every statement below compares quantities that apply the
same `logf`. -/
def NB_log_fr (logf : ℚ → ℚ) (flds : List (List (List ℚ))) : List (List (List ℚ)) :=
  flds.map (fun M => M.map (fun row => row.map logf))

/-- `NaiveBayes.fit(X, y, remove_first_neuron)` (decoder.py lines
274-289): optionally shift the spike dictionary down by one neuron
(`{i: dict[i+1] for i in range(len-1)}`, i.e. drop the leading "noise"
unit — note this *mutates* `self.pc.spk_time_dict`), rebuild the place
fields on the training window with the decoder's `v_cutoff`, and cache
`fields`, the grid-to-real mapping, `poisson_matrix` and `log_fr`. -/
def NB_fit (logf : ℚ → ℚ) (d : NBState) (remove_first_neuron : Bool) : NBState :=
  let dict := if remove_first_neuron then d.pc.spk_time_dict.tail else d.pc.spk_time_dict
  let pc0 := { d.pc with spk_time_dict := dict }
  let pc1 := get_fields pc0 dict d.train_time.1 d.train_time.2 (some d.v_cutoff)
  { d with
    pc := pc1
    fitted := some
      { fields := pc1.fields
        spatial_bin_size := pc1.bin_size
        spatial_origin := (pc1.maze_range.1.1, pc1.maze_range.2.1)
        poisson_matrix := NB_poisson d.t_window pc1.fields pc1.nbins.2 pc1.nbins.1
        log_fr := NB_log_fr logf pc1.fields } }

/-! ## The decode paths (`NaiveBayes.predict`, `NaiveBayes.predict_rt`;
decoder.py lines 291-329)

`bayesian_decoding`, `licomb_Matrix` and `argmax_2d_tensor` live in
`spiketag/analysis/core.py`, which is not among the sources; they are
modelled from the spec (section 4.4) below. -/

/-- The spatial bins `(row, col)` of an `R × C` grid enumerated in
row-major order. -/
def rowMajorBins (R C : ℕ) : List (ℕ × ℕ) :=
  (List.range R).flatMap (fun i => (List.range C).map (fun j => (i, j)))

/-- Modelled from the spec: `argmax_2d_tensor` of the missing
`analysis/core.py` — the arg-max over the grid with ties broken by
first occurrence in row-major order (spec 4.4 step 3); applied to the
row-major enumeration, it returns the earliest element attaining the
maximum (`none` only on an empty grid, where numpy would raise). -/
noncomputable def argmaxFirst {α : Type} (f : α → ℝ) : List α → Option α
  | [] => none
  | a :: l =>
    match argmaxFirst f l with
    | none => some a
    | some b => if f a < f b then some b else some a

/-- Modelled from the spec: the Poisson log-likelihood of spec 4.4
step 1, `loglik(bin) = Σ_n count[n]·log(rate[n,bin]) −
t_window·Σ_n rate[n,bin]`.  The first summand is
`licomb_Matrix(firing_bins, np.log(place_fields))` of the missing
`analysis/core.py` evaluated at one bin, the second is the
`t_window·fields.sum(axis=0)` term (`poisson_matrix`). -/
noncomputable def poissonLoglik (flds : List (List (List ℚ))) (counts : List ℚ)
    (t : ℚ) (b : ℕ × ℕ) : ℝ :=
  (List.zipWith (fun (cn : ℚ) (M : List (List ℚ)) =>
    (cn : ℝ) * Real.log (((M.getD b.1 []).getD b.2 0 : ℚ) : ℝ)) counts flds).sum
  - (t : ℝ) * (flds.map (fun M => (((M.getD b.1 []).getD b.2 0 : ℚ) : ℝ))).sum

/-- Modelled from the spec: the (unnormalized) posterior of
`bayesian_decoding` from the missing `analysis/core.py` — the
exponential of the Poisson log-likelihood at each bin (spec 4.4
step 2; `predict` skips the per-row normalization since only the
arg-max is used). -/
noncomputable def bayesian_decoding_post (flds : List (List (List ℚ)))
    (counts : List ℚ) (t : ℚ) (b : ℕ × ℕ) : ℝ :=
  Real.exp (poissonLoglik flds counts t b)

/-- Spec 4.4 step 4: `y = binned_pos*self.spatial_bin_size +
self.spatial_origin`, the decoded bin `(row, col)` mapped to real
coordinates `(x, y)` (column is the x axis). -/
def binToPos (bin_size : ℚ) (origin : ℚ × ℚ) (b : ℕ × ℕ) : ℝ × ℝ :=
  ((b.2 : ℝ) * (bin_size : ℝ) + (origin.1 : ℝ),
   (b.1 : ℝ) * (bin_size : ℝ) + (origin.2 : ℝ))

/-- A posterior grid materialized as an `R × C` matrix. -/
def gridOf (f : ℕ × ℕ → ℝ) (R C : ℕ) : List (List ℝ) :=
  (List.range R).map (fun i => (List.range C).map (fun j => f (i, j)))

/-- `np.sum(X, axis=0)` of a `(B, N)` count matrix: the columnwise
sums. -/
def sumRows (X : List (List ℚ)) : List ℚ :=
  (List.range ((X.getD 0 []).length)).map (fun j =>
    (X.map (fun row => row.getD j 0)).sum)

/-- `NaiveBayes.predict(X)` (decoder.py lines 291-308).  Before `fit`,
the access `self.fields` raises `AttributeError` — the model option
being `none` embeds the attribute's absence.  With a neuron mask, the
count columns and the field stack are both restricted to the enabled
neurons.  A 1-D input row is reshaped to one row, so the input is
modelled as the 2-D list of rows.  (On an empty grid the arg-max
returns `none` and the row decodes to a default, a case in which numpy
would raise instead; no claim touches an empty grid.) -/
noncomputable def NB_predict (d : NBState) (X : List (List ℚ)) :
    Except PyError (List (ℝ × ℝ)) :=
  match d.fitted with
  | none => Except.error (PyError.attributeError "fields")
  | some m =>
    let fb_pf := match d.disable_neuron_idx with
      | some dis =>
        let neuron_idx := (List.range m.fields.length).filter (fun n => ¬ n ∈ dis)
        ((fun row : List ℚ => neuron_idx.map (fun n => row.getD n 0)),
          neuron_idx.map (fun n => m.fields.getD n []))
      | none => (id, m.fields)
    let R := (m.fields.getD 0 []).length
    let C := ((m.fields.getD 0 []).getD 0 []).length
    Except.ok (X.map (fun row =>
      match argmaxFirst (bayesian_decoding_post fb_pf.2 (fb_pf.1 row) d.t_window)
          (rowMajorBins R C) with
      | some b => binToPos m.spatial_bin_size m.spatial_origin b
      | none => (0, 0)))

/-- `NaiveBayes.predict_rt(X)` (decoder.py lines 310-329).  The input
window is first collapsed to a 1-D count vector: several rows are
summed (`np.sum(X, axis=0)`), a single row is flattened (`X.ravel()`).
When a neuron mask is set, line 318 then evaluates
`X[:, self.neuron_idx]` on that *1-D* array, which raises
`IndexError: too many indices` — the masked path of `predict_rt` never
decodes.  Otherwise the posterior `exp(Σ_n count[n]·log fr − t·Σ fr)`
is normalized to sum 1 and both the arg-max position and the grid are
returned. -/
noncomputable def NB_predict_rt (d : NBState) (X : List (List ℚ)) :
    Except PyError ((ℝ × ℝ) × List (List ℝ)) :=
  match d.fitted with
  | none => Except.error (PyError.attributeError "fields")
  | some m =>
    let x := if 1 < X.length then sumRows X else X.getD 0 []
    match d.disable_neuron_idx with
    | some _ => Except.error (PyError.indexError "too many indices for 1-D array")
    | none =>
      let R := (m.fields.getD 0 []).length
      let C := ((m.fields.getD 0 []).getD 0 []).length
      let post := bayesian_decoding_post m.fields x d.t_window
      let S := ((rowMajorBins R C).map post).sum
      let postN := fun b => post b / S
      match argmaxFirst postN (rowMajorBins R C) with
      | some b =>
        Except.ok (binToPos m.spatial_bin_size m.spatial_origin b, gridOf postN R C)
      | none => Except.error (PyError.indexError "attempt to get argmax of an empty sequence")

/-- A concrete place-cell state for the decoder scenarios: 2 samples at
0 and 1 s, unit grid, one spatial bin, all speeds high, trivial
(length-1) smoothing kernel, two neurons each spiking at 0.5 s. -/
def pcFit : PCState :=
  { ts := [0, 1]
    pos := [(0, 0), (1, 1)]
    v_smoothed := [10, 10]
    v_smoothed_wide := [10, 10]
    v_cutoff := 5
    bin_size := 1
    maze_range := ((0, 1), (0, 1))
    kern_g := [1]
    spk_time_dict := [[1/2], [1/2]]
    nbins := (1, 1)
    O := [[2]]
    fields := [] }

/-- A decoder connected to `pcFit` and partitioned, on which `fit` has
not been called. -/
def dUnfit : NBState :=
  { t_window := 1
    t_step := none
    pc := pcFit
    train_time := (0, 1)
    v_cutoff := 5
    disable_neuron_idx := none
    fitted := none }

/-- A minimal fitted model: one neuron, a 1×1 grid. -/
def mW : NBModel :=
  { fields := [[[1]]]
    spatial_bin_size := 1
    spatial_origin := (0, 0)
    poisson_matrix := [[1]]
    log_fr := [[[0]]] }

/-- A fitted decoder with the default (unset) neuron mask. -/
def dFitted : NBState :=
  { t_window := 1
    t_step := none
    pc := pcFit
    train_time := (0, 1)
    v_cutoff := 5
    disable_neuron_idx := none
    fitted := some mW }

/-- A fitted model with two neurons on a 1×1 grid. -/
def mMask : NBModel :=
  { fields := [[[1]], [[2]]]
    spatial_bin_size := 1
    spatial_origin := (0, 0)
    poisson_matrix := [[3]]
    log_fr := [[[0]], [[0]]] }

/-- The decoder `dMask`: fitted, with neuron 0 disabled via
`drop_neuron(0)`. -/
def dMask : NBState :=
  { t_window := 1
    t_step := none
    pc := pcFit
    train_time := (0, 1)
    v_cutoff := 5
    disable_neuron_idx := some [0]
    fitted := some mMask }

/-! ## Theorems -/

theorem muaPassX_length (X : List (List ℤ)) (m : ℤ) :
    (muaPassX X m).length = X.length := by
  simp [muaPassX]

theorem muaIterX_length (X : List (List ℤ)) (m : ℤ) (t : ℕ) :
    (muaIterX X m t).length = X.length := by
  induction t with
  | zero => rfl
  | succ t ih =>
    rw [muaIterX, Function.iterate_succ_apply'] at *
    rw [muaPassX_length, ih]

theorem muaPassX_getD_of_big (X : List (List ℤ)) (m : ℤ) (i : ℕ)
    (hi : i < X.length) (h : m < (X.getD i []).sum) :
    (muaPassX X m).getD i [] = X.getD i [] := by
  have hlen : i < (muaPassX X m).length := by rw [muaPassX_length]; exact hi
  rw [List.getD_eq_getElem _ _ hlen]
  simp only [muaPassX, List.getElem_map, List.getElem_range]
  rw [if_neg (not_le.mpr h)]

/-- A row whose original total count exceeds the threshold is never
touched by any pass: its content stays the original row forever. -/
theorem muaIterX_getD_of_big (X : List (List ℤ)) (m : ℤ) (i : ℕ)
    (hi : i < X.length) (h : m < (X.getD i []).sum) (t : ℕ) :
    (muaIterX X m t).getD i [] = X.getD i [] := by
  induction t with
  | zero => rfl
  | succ t ih =>
    rw [muaIterX, Function.iterate_succ_apply', ← muaIterX]
    have hi' : i < (muaIterX X m t).length := by rw [muaIterX_length]; exact hi
    rw [muaPassX_getD_of_big _ m i hi' (ih ▸ h), ih]

/-- Characterization of the kept rows: row `i < B` is kept iff its
*original* total count exceeds the threshold. -/
theorem keptRows_char (X : List (List ℤ)) (m : ℤ) :
    keptRows X m = (List.range X.length).filter (fun i => decide (m < (X.getD i []).sum)) := by
  unfold keptRows
  apply List.filter_congr
  intro i hi
  have hi' : i < X.length := List.mem_range.mp hi
  rw [Bool.eq_iff_iff]
  simp only [List.all_eq_true, decide_eq_true_eq, List.mem_range]
  constructor
  · intro h
    have := h 0 (by norm_num)
    simpa [muaIterX] using this
  · intro h t _
    rw [muaIterX_getD_of_big X m i hi' h t]
    exact h

set_option maxRecDepth 40000 in
/-- Claim C3: the spec says a low-count row is replaced by the previous
row and that the very first row is never replaced (the index-0 edge case
being explicitly bounds-checked, never wrapping to the last row).  The
code has no such bounds check: with `minimum_spikes = 1` on
`X = [[0,0],[5,5]]` (paired labels `[(0,0),(7,7)]`), row 0 has total
count `0 ≤ 1` and `X[idx] = X[idx-1]` reads `X[-1]`, so row 0 *is*
replaced, and by the *last* row (and likewise its label). -/
theorem mua_cutoff_row0_wraps_to_last_row :
    (mua_count_cut_off [[0, 0], [5, 5]] [(0, 0), (7, 7)] 1).1 = [[5, 5], [5, 5]] ∧
    (mua_count_cut_off [[0, 0], [5, 5]] [(0, 0), (7, 7)] 1).2 = [(7, 7), (7, 7)] ∧
    (mua_count_cut_off [[0, 0], [5, 5]] [(0, 0), (7, 7)] 1).1.getD 0 [] ≠ [0, 0] := by
  refine ⟨by decide, by decide, by decide⟩

/-- Claim C8: raising the `minimum_spikes` threshold never enlarges the
set of original rows that survive the cut-off pass unreplaced: the rows
kept at the higher threshold are a subset of (hence no more numerous
than) the rows kept at the lower threshold. -/
theorem keptRows_antitone (X : List (List ℤ)) (m₁ m₂ : ℤ) (h : m₁ ≤ m₂) :
    keptRows X m₂ ⊆ keptRows X m₁ ∧ (keptRows X m₂).length ≤ (keptRows X m₁).length := by
  rw [keptRows_char X m₁, keptRows_char X m₂]
  have himp : ∀ i : ℕ, decide (m₂ < (X.getD i []).sum) = true →
      decide (m₁ < (X.getD i []).sum) = true := by
    intro i hd
    exact decide_eq_true_eq.mpr (lt_of_le_of_lt h (decide_eq_true_eq.mp hd))
  have hsub := List.monotone_filter_right (List.range X.length) himp
  exact ⟨hsub.subset, hsub.length_le⟩

/-- Witness for C8 at a concrete input: `X = [[1,0],[3,0],[0,0]]`,
thresholds `0 ≤ 2`. -/
theorem keptRows_antitone_witness :
    (0 : ℤ) ≤ 2 ∧
      (keptRows [[1, 0], [3, 0], [0, 0]] 2).length ≤
        (keptRows [[1, 0], [3, 0], [0, 0]] 0).length :=
  ⟨by decide, (keptRows_antitone [[1, 0], [3, 0], [0, 0]] 0 2 (by decide)).2⟩

unseal Rat.add Rat.mul Rat.sub Rat.inv in
/-- Claim C7: at ground truth `y_test = [0,0,3]` and smoothed prediction
`[0,1,1]`, the `auto_pipeline` scoring call evaluates sklearn's R² with
the *prediction* in the `y_true` slot and the *truth* in the `y_pred`
slot (value `-13/2`), which differs from the documented convention
`r2(true, predicted)` (value `1/6`) — R² is not symmetric, so the
arguments are swapped on this path, contrary to the claim (and to the
code's own inline comment; the `load_decoder` path follows the
convention). -/
theorem auto_pipeline_r2_swapped :
    auto_pipeline_score [0, 0, 3] [0, 1, 1] = sklearn_r2_score [0, 1, 1] [0, 0, 3] ∧
      sklearn_r2_score [0, 1, 1] [0, 0, 3] = -13/2 ∧
      sklearn_r2_score [0, 0, 3] [0, 1, 1] = 1/6 ∧
      auto_pipeline_score [0, 0, 3] [0, 1, 1] ≠ sklearn_r2_score [0, 0, 3] [0, 1, 1] ∧
      load_decoder_score [0, 1, 1] [0, 0, 3] = sklearn_r2_score [0, 0, 3] [0, 1, 1] := by
  refine ⟨rfl, by decide, by decide, by decide, rfl⟩

/-! ## Grid round trip (place_field.py lines 332-334 and 357-364) -/

/-- `Rat.floor` agrees with the floor of the archimedean
order structure on `ℚ`. -/
theorem ratFloor_eq_intFloor (q : ℚ) : q.floor = ⌊q⌋ := by
  rw [Rat.floor_def', Rat.floor_def]

/-- Claim C9: for every integer bin index `b` and positive bin size,
mapping the bin to real coordinates and back returns `b` (grid
round-trip identity). -/
theorem real_binned_round_trip (s o : ℚ) (b : ℤ) (hs : 0 < s) :
    real_pos_2_binned_pos s o (binned_pos_2_real_pos s o b) = b := by
  unfold real_pos_2_binned_pos binned_pos_2_real_pos
  rw [ratFloor_eq_intFloor]
  have h : (((b : ℚ) * s + o - o) / s) = (b : ℚ) := by
    field_simp
  rw [h, Int.floor_intCast]

unseal Rat.add Rat.mul Rat.sub Rat.inv in
/-- Witness for C9 at the concrete grid `bin_size = 5/2` (the default
2.5 cm), `maze_original = -3`, bin index `b = 7`. -/
theorem real_binned_round_trip_witness :
    (0 : ℚ) < 5/2 ∧
      real_pos_2_binned_pos (5/2) (-3) (binned_pos_2_real_pos (5/2) (-3) 7) = 7 :=
  ⟨by decide, real_binned_round_trip (5/2) (-3) 7 (by decide)⟩

unseal Rat.add Rat.mul Rat.sub Rat.inv in
/-- Claim C4, counterexample: two `partition` calls on the same data and
the same ranges, differing *only* in the training-split flag (the
testing flag is `false` in both), produce different validation index
sets — so the validation split's speed filtering is governed by the
training split's flag, not by a flag of its own, contrary to the
claim. -/
theorem partition_valid_filtered_by_training_flag :
    (partition pcPart (0, 1/2) (1/2, 3/4) (3/4, 1) true false none).valid_idx ≠
        (partition pcPart (0, 1/2) (1/2, 3/4) (3/4, 1) false false none).valid_idx ∧
      (partition pcPart (0, 1/2) (1/2, 3/4) (3/4, 1) true false none).valid_idx = [] ∧
      (partition pcPart (0, 1/2) (1/2, 3/4) (3/4, 1) false false none).valid_idx = [2] := by
  refine ⟨by decide, by decide, by decide⟩

/-- The clamp in `_percent_to_time` keeps every converted endpoint at or
below `length - 1`. -/
theorem percentToTime_le (L : ℕ) (f : ℚ) : percentToTime L f ≤ L - 1 := by
  unfold percentToTime
  by_cases h0 : npRound (f * L) < 0
  · simp [h0]
  · rw [if_neg h0]
    by_cases h1 : (L : ℤ) - 1 < npRound (f * L)
    · simp [h1]
    · rw [if_neg h1]
      omega

/-- Claim C4, amended: each split's fractional range is converted to the
index range between its two clamped endpoints (both endpoints lie in
`[0, length-1]`), and speed filtering (strictly exceeding the cutoff)
is applied to the training *and validation* splits exactly when the
`training` flag is true, and to the testing split exactly when the
`testing` flag is true — the validation split has no flag of its own
and follows the training flag. -/
theorem partition_split_membership (pc : PCState) (tr va te : ℚ × ℚ)
    (ct cs : Bool) (vco : Option ℚ) :
    let L := pc.ts.length
    let vc := vco.getD pc.v_cutoff
    let P := partition pc tr va te ct cs vco
    (∀ f : ℚ, percentToTime L f ≤ L - 1) ∧
      (∀ i, i ∈ P.train_idx ↔
        percentToTime L tr.1 ≤ i ∧ i < percentToTime L tr.2 ∧
          (ct = true → vc < pc.v_smoothed.getD i 0)) ∧
      (∀ i, i ∈ P.valid_idx ↔
        percentToTime L va.1 ≤ i ∧ i < percentToTime L va.2 ∧
          (ct = true → vc < pc.v_smoothed.getD i 0)) ∧
      (∀ i, i ∈ P.test_idx ↔
        percentToTime L te.1 ≤ i ∧ i < percentToTime L te.2 ∧
          (cs = true → vc < pc.v_smoothed.getD i 0)) := by
  intro L vc P
  have hmem : ∀ (r : ℚ × ℚ) (i : ℕ), i ∈ rangeIdx L r ↔
      percentToTime L r.1 ≤ i ∧ i < percentToTime L r.2 := by
    intro r i
    rw [rangeIdx, List.mem_range'_1]
    omega
  have hflt : ∀ (b : Bool) (r : ℚ × ℚ) (i : ℕ),
      (i ∈ (if b then speedFilter pc vc (rangeIdx L r) else rangeIdx L r) ↔
        percentToTime L r.1 ≤ i ∧ i < percentToTime L r.2 ∧
          (b = true → vc < pc.v_smoothed.getD i 0)) := by
    intro b r i
    cases b with
    | false => simp [hmem r i, and_assoc]
    | true => simp [speedFilter, List.mem_filter, hmem r i, and_assoc]
  exact ⟨fun f => percentToTime_le L f, hflt ct tr, hflt ct va, hflt cs te⟩

/-- Claim C10: on a trajectory of length `L ≥ 2`, every index that
`partition` places in any of the three splits is at most `L - 2`, hence
a valid index into the spike-count matrix `X` and the label array `y`
of `get_data`, which both have `L - 1` rows (`y = pos[1:]`, and the
code asserts `X.shape[0] == y.shape[0]`). -/
theorem partition_indices_safe (pc : PCState) (tr va te : ℚ × ℚ)
    (ct cs : Bool) (vco : Option ℚ) (X : List (List ℚ)) (y : List (ℚ × ℚ))
    (hL : 2 ≤ pc.ts.length)
    (hX : X.length = pc.ts.length - 1) (hy : y.length = pc.ts.length - 1)
    (i : ℕ)
    (hi : i ∈ (partition pc tr va te ct cs vco).train_idx ∨
      i ∈ (partition pc tr va te ct cs vco).valid_idx ∨
      i ∈ (partition pc tr va te ct cs vco).test_idx) :
    i ≤ pc.ts.length - 2 ∧ i < X.length ∧ i < y.length := by
  set L := pc.ts.length with hLdef
  have key : ∀ (r : ℚ × ℚ), i ∈ rangeIdx L r → i ≤ L - 2 := by
    intro r hmem
    rw [rangeIdx, List.mem_range'_1] at hmem
    have h1 := percentToTime_le L r.1
    have h2 := percentToTime_le L r.2
    omega
  have hof : ∀ (b : Bool) (r : ℚ × ℚ) (vc : ℚ),
      i ∈ (if b then speedFilter pc vc (rangeIdx L r) else rangeIdx L r) → i ≤ L - 2 := by
    intro b r vc hmem
    cases b with
    | false => exact key r (by simpa using hmem)
    | true =>
      rw [if_pos rfl, speedFilter, List.mem_filter] at hmem
      exact key r hmem.1
  have hle : i ≤ L - 2 := by
    rcases hi with h | h | h
    · exact hof ct tr _ h
    · exact hof ct va _ h
    · exact hof cs te _ h
  exact ⟨hle, by omega, by omega⟩

unseal Rat.add Rat.mul Rat.sub Rat.inv in
/-- Witness for C10 at a concrete input: `pcPart` (4 samples), matrices
with 3 rows, index 1 of the training split. -/
theorem partition_indices_safe_witness :
    2 ≤ pcPart.ts.length ∧
      ([[0], [0], [0]] : List (List ℚ)).length = pcPart.ts.length - 1 ∧
      ([(0, 0), (0, 0), (0, 0)] : List (ℚ × ℚ)).length = pcPart.ts.length - 1 ∧
      (1 ≤ pcPart.ts.length - 2 ∧ 1 < ([[0], [0], [0]] : List (List ℚ)).length ∧
        1 < ([(0, 0), (0, 0), (0, 0)] : List (ℚ × ℚ)).length) :=
  ⟨by decide, by decide, by decide,
    partition_indices_safe pcPart (0, 1/2) (1/2, 3/4) (3/4, 1) false false none
      [[0], [0], [0]] [(0, 0), (0, 0), (0, 0)] (by decide) (by decide) (by decide) 1
      (Or.inl (by decide))⟩

/-- Claim C2, amended: any decode call (`predict` or `predict_rt`, any
input) on a decoder on which `fit` has not run fails with Python's
`AttributeError` for the missing `fields` attribute — there is no
`NotFittedError` anywhere in the code. -/
theorem predict_before_fit_attribute_error (d : NBState) (X Y : List (List ℚ))
    (h : d.fitted = none) :
    NB_predict d X = Except.error (PyError.attributeError "fields") ∧
      NB_predict_rt d Y = Except.error (PyError.attributeError "fields") := by
  unfold NB_predict NB_predict_rt
  rw [h]
  exact ⟨rfl, rfl⟩

/-- Witness for the amended C2 at the concrete unfitted decoder. -/
theorem predict_before_fit_attribute_error_witness :
    dUnfit.fitted = none ∧
      (NB_predict dUnfit [[1, 2]] = Except.error (PyError.attributeError "fields") ∧
        NB_predict_rt dUnfit [[3, 4]] = Except.error (PyError.attributeError "fields")) :=
  ⟨rfl, predict_before_fit_attribute_error dUnfit [[1, 2]] [[3, 4]] rfl⟩

/-- Claim C2, counterexample: the decode calls before `fit` do fail,
but with a plain `AttributeError`, which is not the distinguishable
`NotFittedError` the claim demands (no such error class exists in the
code). -/
theorem predict_before_fit_not_notfitted :
    NB_predict dUnfit [[1, 2]] = Except.error (PyError.attributeError "fields") ∧
      NB_predict_rt dUnfit [[1, 2]] = Except.error (PyError.attributeError "fields") ∧
      PyError.attributeError "fields" ≠ PyError.notFittedError :=
  ⟨rfl, rfl, by decide⟩

theorem argmaxFirst_ne_none {α : Type} (f : α → ℝ) (a : α) (l : List α) :
    argmaxFirst f (a :: l) ≠ none := by
  rw [argmaxFirst]
  cases argmaxFirst f l with
  | none => exact Option.some_ne_none a
  | some b =>
    dsimp only
    by_cases h : f a < f b
    · rw [if_pos h]; exact Option.some_ne_none b
    · rw [if_neg h]; exact Option.some_ne_none a

/-- Post-composing the scores with a strictly monotone map does not
change the first-occurrence arg-max. -/
theorem argmaxFirst_comp_strictMono {α : Type} (g : ℝ → ℝ) (hg : StrictMono g)
    (f : α → ℝ) (l : List α) :
    argmaxFirst (fun a => g (f a)) l = argmaxFirst f l := by
  induction l with
  | nil => rfl
  | cons a l ih =>
    rw [argmaxFirst, argmaxFirst, ih]
    cases argmaxFirst f l with
    | none => rfl
    | some b =>
      dsimp only
      by_cases h : f a < f b
      · rw [if_pos h, if_pos (hg h)]
      · rw [if_neg h, if_neg (fun hc => h (hg.lt_iff_lt.mp hc))]

theorem rowMajorBins_ne_nil (R C : ℕ) (hR : R ≠ 0) (hC : C ≠ 0) :
    rowMajorBins R C ≠ [] := by
  intro h
  have : (0, 0) ∈ rowMajorBins R C := by
    rw [rowMajorBins]
    simp only [List.mem_flatMap, List.mem_map, List.mem_range]
    exact ⟨0, Nat.pos_of_ne_zero hR, 0, Nat.pos_of_ne_zero hC, rfl⟩
  rw [h] at this
  exact List.not_mem_nil _ this

/-- Claim C1, amended: on every *fitted* decoder whose neuron mask is
not set (`_disable_neuron_idx is None`, the `__init__` default) and
whose grid is nonempty, `predict` and `predict_rt` on the same single
count row select the same arg-max bin and return the same decoded
position, and the posterior grid of `predict_rt` is the unnormalized
posterior of `predict` divided by the positive normalization constant
`S` (the grid sum) — equivalent up to the normalization constant. -/
theorem predict_rt_agrees_with_predict (d : NBState) (m : NBModel) (c : List ℚ)
    (hm : d.fitted = some m) (hdis : d.disable_neuron_idx = none)
    (hR : (m.fields.getD 0 []).length ≠ 0)
    (hC : ((m.fields.getD 0 []).getD 0 []).length ≠ 0) :
    ∃ (b : ℕ × ℕ) (S : ℝ),
      0 < S ∧
        S = ((rowMajorBins ((m.fields.getD 0 []).length)
              (((m.fields.getD 0 []).getD 0 []).length)).map
              (bayesian_decoding_post m.fields c d.t_window)).sum ∧
        NB_predict d [c] = Except.ok [binToPos m.spatial_bin_size m.spatial_origin b] ∧
        NB_predict_rt d [c] =
          Except.ok (binToPos m.spatial_bin_size m.spatial_origin b,
            gridOf (fun bb => bayesian_decoding_post m.fields c d.t_window bb /
                ((rowMajorBins ((m.fields.getD 0 []).length)
                  (((m.fields.getD 0 []).getD 0 []).length)).map
                  (bayesian_decoding_post m.fields c d.t_window)).sum)
              ((m.fields.getD 0 []).length)
              (((m.fields.getD 0 []).getD 0 []).length)) := by
  have hbins : rowMajorBins ((m.fields.getD 0 []).length)
      (((m.fields.getD 0 []).getD 0 []).length) ≠ [] :=
    rowMajorBins_ne_nil _ _ hR hC
  have hSpos : 0 < ((rowMajorBins ((m.fields.getD 0 []).length)
      (((m.fields.getD 0 []).getD 0 []).length)).map
      (bayesian_decoding_post m.fields c d.t_window)).sum := by
    apply List.sum_pos
    · intro x hx
      rcases List.mem_map.mp hx with ⟨bb, _, rfl⟩
      exact Real.exp_pos _
    · simpa only [ne_eq, List.map_eq_nil_iff] using hbins
  obtain ⟨b, hb⟩ : ∃ b, argmaxFirst (bayesian_decoding_post m.fields c d.t_window)
      (rowMajorBins ((m.fields.getD 0 []).length)
        (((m.fields.getD 0 []).getD 0 []).length)) = some b := by
    cases hbl : rowMajorBins ((m.fields.getD 0 []).length)
        (((m.fields.getD 0 []).getD 0 []).length) with
    | nil => exact absurd hbl hbins
    | cons a l =>
      cases hx : argmaxFirst (bayesian_decoding_post m.fields c d.t_window) (a :: l) with
      | none => exact absurd hx (argmaxFirst_ne_none _ a l)
      | some b0 => exact ⟨b0, rfl⟩
  have hdiv : StrictMono (fun v : ℝ => v / ((rowMajorBins ((m.fields.getD 0 []).length)
      (((m.fields.getD 0 []).getD 0 []).length)).map
      (bayesian_decoding_post m.fields c d.t_window)).sum) := by
    intro x y hxy
    simpa [div_eq_mul_inv] using mul_lt_mul_of_pos_right hxy (inv_pos.mpr hSpos)
  have hargN : argmaxFirst (fun bb => bayesian_decoding_post m.fields c d.t_window bb /
      ((rowMajorBins ((m.fields.getD 0 []).length)
        (((m.fields.getD 0 []).getD 0 []).length)).map
        (bayesian_decoding_post m.fields c d.t_window)).sum)
      (rowMajorBins ((m.fields.getD 0 []).length)
        (((m.fields.getD 0 []).getD 0 []).length)) = some b := by
    rw [argmaxFirst_comp_strictMono _ hdiv
      (bayesian_decoding_post m.fields c d.t_window) _, hb]
  refine ⟨b, _, hSpos, rfl, ?_, ?_⟩
  · simp only [NB_predict, hm, hdis]
    simp only [List.map_cons, List.map_nil, id_eq, hb]
  · simp only [NB_predict_rt, hm, hdis]
    have hlen : ¬ (1 < ([c] : List (List ℚ)).length) := by simp
    simp only [if_neg hlen, List.getD_cons_zero, hargN]

/-- Witness for the amended C1 at the concrete fitted decoder `dFitted`
and the count row `[2]`. -/
theorem predict_rt_agrees_with_predict_witness :
    dFitted.fitted = some mW ∧ dFitted.disable_neuron_idx = none ∧
      (mW.fields.getD 0 []).length ≠ 0 ∧
      ((mW.fields.getD 0 []).getD 0 []).length ≠ 0 ∧
      (∃ (b : ℕ × ℕ) (S : ℝ),
        0 < S ∧
          S = ((rowMajorBins ((mW.fields.getD 0 []).length)
                (((mW.fields.getD 0 []).getD 0 []).length)).map
                (bayesian_decoding_post mW.fields [2] dFitted.t_window)).sum ∧
          NB_predict dFitted [[2]] =
            Except.ok [binToPos mW.spatial_bin_size mW.spatial_origin b] ∧
          NB_predict_rt dFitted [[2]] =
            Except.ok (binToPos mW.spatial_bin_size mW.spatial_origin b,
              gridOf (fun bb => bayesian_decoding_post mW.fields [2] dFitted.t_window bb /
                  ((rowMajorBins ((mW.fields.getD 0 []).length)
                    (((mW.fields.getD 0 []).getD 0 []).length)).map
                    (bayesian_decoding_post mW.fields [2] dFitted.t_window)).sum)
                ((mW.fields.getD 0 []).length)
                (((mW.fields.getD 0 []).getD 0 []).length))) :=
  ⟨rfl, rfl, by decide, by decide,
    predict_rt_agrees_with_predict dFitted mW [2] rfl rfl (by decide) (by decide)⟩

/-- Claim C1, counterexample: on the fitted decoder `dMask` whose
neuron mask is set, `predict` decodes the single row `[1, 2]`
successfully but `predict_rt` raises `IndexError` (line 318 indexes the
raveled 1-D count vector with `X[:, neuron_idx]`), so the two decode
paths do not return the same decoded position for this fitted decoder
and row, contrary to the claim's "every fitted decoder". -/
theorem predict_rt_mask_1d_index_error :
    NB_predict_rt dMask [[1, 2]] =
      Except.error (PyError.indexError "too many indices for 1-D array") ∧
      (∃ ys, NB_predict dMask [[1, 2]] = Except.ok ys) :=
  ⟨rfl, ⟨_, rfl⟩⟩

theorem get_fields_preserves (pc : PCState) (dict : List (List ℚ))
    (start end_ : ℚ) (vco : Option ℚ) :
    (get_fields pc dict start end_ vco).ts = pc.ts ∧
      (get_fields pc dict start end_ vco).pos = pc.pos ∧
      (get_fields pc dict start end_ vco).v_smoothed = pc.v_smoothed ∧
      (get_fields pc dict start end_ vco).v_smoothed_wide = pc.v_smoothed_wide ∧
      (get_fields pc dict start end_ vco).bin_size = pc.bin_size ∧
      (get_fields pc dict start end_ vco).maze_range = pc.maze_range ∧
      (get_fields pc dict start end_ vco).kern_g = pc.kern_g ∧
      (get_fields pc dict start end_ vco).spk_time_dict = pc.spk_time_dict := by
  unfold get_fields get_occupation_map
  cases vco <;> exact ⟨rfl, rfl, rfl, rfl, rfl, rfl, rfl, rfl⟩

theorem get_fields_v_cutoff (pc : PCState) (dict : List (List ℚ))
    (start end_ vc : ℚ) :
    (get_fields pc dict start end_ (some vc)).v_cutoff = vc := by
  unfold get_fields get_occupation_map
  rfl

/-- `get_fields` only reads the trajectory, the speed arrays, the
cutoff, the grid geometry, the kernel and its arguments: two states
agreeing on those produce the same output. -/
theorem get_fields_congr (pc pc' : PCState) (dict : List (List ℚ)) (s e vc : ℚ)
    (hts : pc'.ts = pc.ts) (hpos : pc'.pos = pc.pos)
    (hvs : pc'.v_smoothed = pc.v_smoothed)
    (hw : pc'.v_smoothed_wide = pc.v_smoothed_wide)
    (hvc : pc'.v_cutoff = pc.v_cutoff) (hbs : pc'.bin_size = pc.bin_size)
    (hmr : pc'.maze_range = pc.maze_range) (hk : pc'.kern_g = pc.kern_g)
    (hsd : pc'.spk_time_dict = pc.spk_time_dict) :
    get_fields pc' dict s e (some vc) = get_fields pc dict s e (some vc) := by
  simp only [get_fields, get_occupation_map, mazeNbins, lowSpeedIdx, _get_field,
    _get_firing_pos, searchsorted, pcDt, hts, hpos, hvs, hw, hvc, hbs, hmr, hk, hsd]

/-- Rebuilding the fields twice with the same arguments is the same as
rebuilding them once, provided the requested cutoff is the one already
stored (as `NaiveBayes.fit` after `partition` guarantees). -/
theorem get_fields_idem (pc : PCState) (dict : List (List ℚ)) (s e vc : ℚ)
    (hvc : pc.v_cutoff = vc) :
    get_fields (get_fields pc dict s e (some vc)) dict s e (some vc) =
      get_fields pc dict s e (some vc) := by
  obtain ⟨hts, hpos, hvs, hw, hbs, hmr, hk, hsd⟩ :=
    get_fields_preserves pc dict s e (some vc)
  exact get_fields_congr pc (get_fields pc dict s e (some vc)) dict s e vc hts hpos hvs hw
    ((get_fields_v_cutoff pc dict s e vc).trans hvc.symm) hbs hmr hk hsd

/-- `NB_fit` with `remove_first_neuron=False`, unfolded. -/
theorem NB_fit_false_unfold (logf : ℚ → ℚ) (d : NBState) :
    NB_fit logf d false =
      { d with
        pc := get_fields d.pc d.pc.spk_time_dict d.train_time.1 d.train_time.2
          (some d.v_cutoff)
        fitted := some
          { fields := (get_fields d.pc d.pc.spk_time_dict d.train_time.1 d.train_time.2
              (some d.v_cutoff)).fields
            spatial_bin_size := (get_fields d.pc d.pc.spk_time_dict d.train_time.1
              d.train_time.2 (some d.v_cutoff)).bin_size
            spatial_origin := ((get_fields d.pc d.pc.spk_time_dict d.train_time.1
              d.train_time.2 (some d.v_cutoff)).maze_range.1.1,
              (get_fields d.pc d.pc.spk_time_dict d.train_time.1 d.train_time.2
                (some d.v_cutoff)).maze_range.2.1)
            poisson_matrix := NB_poisson d.t_window
              (get_fields d.pc d.pc.spk_time_dict d.train_time.1 d.train_time.2
                (some d.v_cutoff)).fields
              (get_fields d.pc d.pc.spk_time_dict d.train_time.1 d.train_time.2
                (some d.v_cutoff)).nbins.2
              (get_fields d.pc d.pc.spk_time_dict d.train_time.1 d.train_time.2
                (some d.v_cutoff)).nbins.1
            log_fr := NB_log_fr logf (get_fields d.pc d.pc.spk_time_dict d.train_time.1
              d.train_time.2 (some d.v_cutoff)).fields } } := rfl

/-- Claim C5, amended: `fit` with `remove_first_neuron=False` is
idempotent — a second call with the same arguments reproduces the same
cached model (`fields`, `spatial` mapping, `poisson_matrix`, `log_fr`)
— provided the decoder cutoff equals the place-cell object's stored
cutoff, which the default `partition` flow (`v_cutoff=None`)
establishes.  With `remove_first_neuron=True` the claim fails, see the
counterexample. -/
theorem NB_fit_idempotent (logf : ℚ → ℚ) (d : NBState)
    (hv : d.pc.v_cutoff = d.v_cutoff) :
    (NB_fit logf (NB_fit logf d false) false).fitted = (NB_fit logf d false).fitted := by
  obtain ⟨hts, hpos, hvs, hw, hbs, hmr, hk, hsd⟩ :=
    get_fields_preserves d.pc d.pc.spk_time_dict d.train_time.1 d.train_time.2
      (some d.v_cutoff)
  rw [NB_fit_false_unfold logf d, NB_fit_false_unfold]
  dsimp only
  rw [hsd, get_fields_idem d.pc d.pc.spk_time_dict d.train_time.1 d.train_time.2
    d.v_cutoff hv]

/-- Witness for the amended C5 at the concrete decoder `dUnfit`
(identity standing in for the `np.log` parameter). -/
theorem NB_fit_idempotent_witness :
    dUnfit.pc.v_cutoff = dUnfit.v_cutoff ∧
      (NB_fit (fun q => q) (NB_fit (fun q => q) dUnfit false) false).fitted =
        (NB_fit (fun q => q) dUnfit false).fitted :=
  ⟨rfl, NB_fit_idempotent (fun q => q) dUnfit rfl⟩

unseal Rat.add Rat.mul Rat.sub Rat.inv in
set_option maxRecDepth 100000 in
/-- Claim C5, counterexample: on the two-neuron decoder `dUnfit`,
calling `fit` twice with the identical argument
`remove_first_neuron=True` does not reproduce the first call's model:
the first call drops the leading unit (1 field remains), the second
call drops another one (0 fields remain), because the option *mutates*
`self.pc.spk_time_dict`.  The cached models differ, so `fit` is not
idempotent for this argument combination. -/
theorem fit_twice_remove_first_changes_fields :
    (NB_fit (fun q => q) (NB_fit (fun q => q) dUnfit true) true).fitted ≠
        (NB_fit (fun q => q) dUnfit true).fitted ∧
      ((NB_fit (fun q => q) (NB_fit (fun q => q) dUnfit true) true).fitted.elim 0
        (fun M => M.fields.length)) = 0 ∧
      ((NB_fit (fun q => q) dUnfit true).fitted.elim 0 (fun M => M.fields.length)) = 1 := by
  refine ⟨by decide, by decide, by decide⟩

theorem getD_nonneg_of_forall (row : List ℚ) (h : ∀ x ∈ row, 0 ≤ x) (n : ℕ) :
    0 ≤ row.getD n 0 := by
  by_cases hn : n < row.length
  · rw [List.getD_eq_getElem _ _ hn]
    exact h _ (List.getElem_mem hn)
  · rw [List.getD_eq_default _ _ (le_of_not_lt hn)]

theorem getD_getD_nonneg (A : List (List ℚ)) (h : ∀ row ∈ A, ∀ x ∈ row, 0 ≤ x)
    (m n : ℕ) : 0 ≤ (A.getD m []).getD n 0 := by
  by_cases hm : m < A.length
  · refine getD_nonneg_of_forall _ (h _ ?_) n
    rw [List.getD_eq_getElem _ _ hm]
    exact List.getElem_mem hm
  · rw [List.getD_eq_default _ _ (le_of_not_lt hm)]
    simp

/-- The normalized Gaussian kernel built by `gkern` from a nonnegative
window has nonnegative entries. -/
theorem gkern_entries_nonneg (g : List ℚ) (hg : ∀ x ∈ g, 0 ≤ x) :
    ∀ row ∈ gkern g, ∀ x ∈ row, 0 ≤ x := by
  intro row hrow x hx
  simp only [gkern, List.mem_map] at hrow
  rcases hrow with ⟨row0, ⟨a, ha, rfl⟩, rfl⟩
  rcases List.mem_map.mp hx with ⟨x0, hx0, rfl⟩
  rcases List.mem_map.mp hx0 with ⟨b, hb, rfl⟩
  apply div_nonneg (mul_nonneg (hg a ha) (hg b hb))
  apply List.sum_nonneg
  intro srow hsrow
  rcases List.mem_map.mp hsrow with ⟨r0, hr0, rfl⟩
  apply List.sum_nonneg
  intro y hy
  rcases List.mem_map.mp hr0 with ⟨a0, ha0, rfl⟩
  rcases List.mem_map.mp hy with ⟨b0, hb0, rfl⟩
  exact mul_nonneg (hg _ ha0) (hg _ hb0)

/-- The raw rate map is entrywise nonnegative: counts and occupancy are
counts, the time step is nonnegative, and the zero-denominator case is
zeroed. -/
theorem rateMatrix_entries_nonneg (firing occ : List (List ℕ)) (dt : ℚ)
    (hdt : 0 ≤ dt) : ∀ row ∈ rateMatrix firing occ dt, ∀ x ∈ row, 0 ≤ x := by
  intro row hrow x hx
  simp only [rateMatrix, List.mem_map, List.mem_range] at hrow
  rcases hrow with ⟨r, _, rfl⟩
  rcases List.mem_map.mp hx with ⟨c, _, rfl⟩
  by_cases h0 : ((occ.getD r []).getD c 0 : ℚ) * dt = 0
  · rw [if_pos h0]
  · rw [if_neg h0]
    exact div_nonneg (by positivity) (mul_nonneg (by positivity) hdt)

/-- Convolving a nonnegative matrix with a nonnegative kernel (with
symmetric boundary handling) stays entrywise nonnegative. -/
theorem conv2dSymm_entries_nonneg (A K : List (List ℚ))
    (hA : ∀ row ∈ A, ∀ x ∈ row, 0 ≤ x) (hK : ∀ row ∈ K, ∀ x ∈ row, 0 ≤ x) :
    ∀ row ∈ conv2dSymm A K, ∀ x ∈ row, 0 ≤ x := by
  intro row hrow x hx
  simp only [conv2dSymm, List.mem_map, List.mem_range] at hrow
  rcases hrow with ⟨i, _, rfl⟩
  rcases List.mem_map.mp hx with ⟨j, _, rfl⟩
  apply List.sum_nonneg
  intro y hy
  rcases List.mem_map.mp hy with ⟨m, _, rfl⟩
  apply List.sum_nonneg
  intro z hz
  rcases List.mem_map.mp hz with ⟨n, _, rfl⟩
  refine mul_nonneg (getD_getD_nonneg K hK m n) ?_
  unfold matGetSym
  exact getD_getD_nonneg A hA _ _

theorem _get_field_entries_nonneg (pc : PCState) (spk : List ℚ)
    (hg : ∀ x ∈ pc.kern_g, 0 ≤ x) (hdt : 0 ≤ pcDt pc) :
    ∀ row ∈ _get_field pc spk, ∀ x ∈ row, 0 ≤ x := by
  unfold _get_field
  exact conv2dSymm_entries_nonneg _ _
    (rateMatrix_entries_nonneg _ _ _ hdt) (gkern_entries_nonneg _ hg)

/-- After the `fields==0` clamp, a nonnegative matrix is entrywise
strictly positive. -/
theorem clampZeros_entries_pos (A : List (List ℚ))
    (h : ∀ row ∈ A, ∀ x ∈ row, 0 ≤ x) :
    ∀ row ∈ clampZeros A, ∀ x ∈ row, 0 < x := by
  intro row hrow x hx
  simp only [clampZeros, List.mem_map] at hrow
  rcases hrow with ⟨row0, hrow0, rfl⟩
  rcases List.mem_map.mp hx with ⟨x0, hx0, rfl⟩
  by_cases hz : x0 = 0
  · rw [if_pos hz]
    norm_num [fieldEps]
  · rw [if_neg hz]
    exact lt_of_le_of_ne (h _ hrow0 _ hx0) (Ne.symm hz)

/-- Claim C6: with a strictly positive Gaussian window (as
`scipy.signal.gaussian` produces) and a nonnegative trajectory time
step, every entry of every field stored by `get_fields` is strictly
positive — never exactly zero, so the decoder's logarithm of every
field entry is finite.  NaN/Inf from zero-occupancy bins are zeroed in
`rateMatrix` before smoothing, and the remaining exact zeros are
clamped to `1e-25`. -/
theorem get_fields_entries_positive (pc : PCState) (dict : List (List ℚ))
    (start end_ : ℚ) (vco : Option ℚ)
    (hg : ∀ x ∈ pc.kern_g, 0 < x) (hdt : 0 ≤ pcDt pc) :
    ∀ M ∈ (get_fields pc dict start end_ vco).fields, ∀ row ∈ M, ∀ x ∈ row, 0 < x := by
  intro M hM
  have hg' : ∀ x ∈ pc.kern_g, (0 : ℚ) ≤ x := fun x hx => le_of_lt (hg x hx)
  cases vco with
  | none =>
    simp only [get_fields, get_occupation_map, List.mem_map] at hM
    rcases hM with ⟨M0, ⟨spk, _, rfl⟩, rfl⟩
    exact clampZeros_entries_pos _ (_get_field_entries_nonneg _ _ hg' hdt)
  | some vc =>
    simp only [get_fields, get_occupation_map, List.mem_map] at hM
    rcases hM with ⟨M0, ⟨spk, _, rfl⟩, rfl⟩
    exact clampZeros_entries_pos _ (_get_field_entries_nonneg _ _ hg' hdt)

unseal Rat.add Rat.mul Rat.sub Rat.inv in
set_option maxRecDepth 100000 in
/-- Witness for C6 at the concrete place-cell state `pcFit` with one
neuron: the single stored field, its single row and its single entry
are extracted and the entry is strictly positive. -/
theorem get_fields_entries_positive_witness :
    (∀ x ∈ pcFit.kern_g, (0 : ℚ) < x) ∧ 0 ≤ pcDt pcFit ∧
      0 < ((((get_fields pcFit [[1/2]] 0 1 (some 5)).fields.getD 0 []).getD 0 []).getD 0 0) :=
  ⟨by decide, by decide,
    get_fields_entries_positive pcFit [[1/2]] 0 1 (some 5) (by decide) (by decide)
      ((get_fields pcFit [[1/2]] 0 1 (some 5)).fields.getD 0 []) (by decide)
      (((get_fields pcFit [[1/2]] 0 1 (some 5)).fields.getD 0 []).getD 0 []) (by decide)
      ((((get_fields pcFit [[1/2]] 0 1 (some 5)).fields.getD 0 []).getD 0 []).getD 0 0)
      (by decide)⟩
